import Mathlib

/-!
Shallow embedding of the emotion-detection pipeline and the analytics
computations of the mental-wellness chatbot repository.

Numeric values (confidence, sentiment, intensity) are modelled as rationals;
text is a list of characters; the external trained-model artifacts
(vectorizer, classifier, label decoder) are modelled as an abstract oracle
whose failures are explicit `Option` values; Python dictionaries appear as
association lists in insertion order.
-/

/-- Python ASCII whitespace test used by `str.strip()` on the texts the
detector receives (space, tab, newline, carriage return, vertical tab,
form feed). -/
def pyIsSpace (c : Char) : Bool :=
  c.toNat == 32 || c.toNat == 9 || c.toNat == 10 || c.toNat == 13 ||
  c.toNat == 11 || c.toNat == 12

/-- `not text or not text.strip()`: the text is empty or all-whitespace. -/
def isBlank (t : List Char) : Bool :=
  t.all pyIsSpace

/-- Python `str.lower()` on one ASCII character. -/
def pyToLower (c : Char) : Char :=
  if 65 ≤ c.toNat ∧ c.toNat ≤ 90 then Char.ofNat (c.toNat + 32) else c

/-- `text.lower()`. -/
def lowerText (t : List Char) : List Char :=
  t.map pyToLower

/-- Python `min` on two rationals, kept kernel-computable. -/
def ratMin (a b : ℚ) : ℚ :=
  if a ≤ b then a else b

/-- Python `max` on two rationals, kept kernel-computable. -/
def ratMax (a b : ℚ) : ℚ :=
  if a ≤ b then b else a

/-- Python substring membership `kw in text`. -/
def containsSub (kw : List Char) : List Char → Bool
  | [] => kw.isEmpty
  | c :: rest => kw.isPrefixOf (c :: rest) || containsSub kw rest

/-- `sum(1 for keyword in keywords if keyword in text_lower)`: number of
keywords of one emotion occurring in the lowered text (membership, not
occurrence count). -/
def kwScore (kws : List String) (tl : List Char) : Nat :=
  (kws.filter (fun kw => containsSub kw.toList tl)).length

/-- The `emotion_keywords` dict of `EmotionDetector._fallback_detection`
(attached_assets/emotion_detector), in declaration order. -/
def keyword_table : List (String × List String) :=
  [("joy", ["happy", "joyful", "excited", "cheerful", "glad", "delighted",
            "elated", "content", "thrilled", "ecstatic", "blissful", "pleased",
            "wonderful", "fantastic", "great", "amazing", "awesome",
            "brilliant", "excellent"]),
   ("sadness", ["sad", "depressed", "down", "unhappy", "melancholy", "gloomy",
                "miserable", "heartbroken", "sorrowful", "dejected",
                "disappointed", "hurt", "upset", "blue", "low", "terrible",
                "awful", "bad"]),
   ("anger", ["angry", "furious", "mad", "irritated", "annoyed", "frustrated",
              "rage", "outraged", "livid", "irate", "enraged", "indignant",
              "incensed", "pissed", "hostile"]),
   ("fear", ["scared", "afraid", "anxious", "worried", "nervous", "terrified",
             "panicked", "frightened", "fearful", "apprehensive", "concerned",
             "uneasy", "distressed", "alarmed"]),
   ("surprise", ["surprised", "shocked", "amazed", "astonished", "stunned",
                 "bewildered", "startled", "astounded", "flabbergasted",
                 "dumbfounded"]),
   ("love", ["love", "adore", "cherish", "affection", "romantic", "caring",
             "devoted", "fond", "attached", "passionate", "infatuated"]),
   ("neutral", ["okay", "fine", "normal", "regular", "usual", "alright",
                "decent", "average"])]

/-- The `emotion_keywords` dict of
`EmotionDetector._fallback_emotion_detection` (ml_utils), in declaration
order.  Note that the string love appears both in the joy list and in the
love list. -/
def ml_keyword_table : List (String × List String) :=
  [("joy", ["happy", "joy", "excited", "great", "wonderful", "amazing",
            "fantastic", "love", "awesome"]),
   ("sadness", ["sad", "depressed", "upset", "down", "crying", "tears",
                "lonely", "grief"]),
   ("anger", ["angry", "mad", "furious", "rage", "hate", "frustrated",
              "annoyed"]),
   ("fear", ["scared", "afraid", "fear", "anxious", "worried", "panic",
             "terrified"]),
   ("surprise", ["surprised", "shocked", "amazed", "wow", "unexpected"]),
   ("love", ["love", "adore", "cherish", "romantic", "affection", "caring"])]

/-- The `emotion_scores` dict: only emotions with positive score are
inserted, in table order. -/
def scoredList (table : List (String × List String)) (tl : List Char) :
    List (String × Nat) :=
  table.filterMap (fun p =>
    if 0 < kwScore p.2 tl then some (p.1, kwScore p.2 tl) else none)

/-- Python `max(..., key=...)`: keep the current best, replace only on a
strictly greater key, so the first maximal entry in iteration order wins. -/
def pickFirstMax (hd : String × Nat) (rest : List (String × Nat)) :
    String × Nat :=
  rest.foldl (fun best x => if best.2 < x.2 then x else best) hd

/-- Confidence formula of both fallback classifiers:
`min(cap, score * weight + 0.3)`. -/
def confFn (cap w : ℚ) (s : Nat) : ℚ :=
  ratMin cap ((s : ℚ) * w + 3 / 10)

/-- Common body of the two keyword fallback classifiers: score each emotion,
keep the positive scorers, pick the first maximal one, or return
`(neutral, 0.5)` when every score is zero. -/
def fallbackCore (table : List (String × List String)) (cap w : ℚ)
    (t : List Char) : String × ℚ :=
  match scoredList table (lowerText t) with
  | [] => ("neutral", 1 / 2)
  | hd :: rest =>
      let best := pickFirstMax hd rest
      (best.1, confFn cap w best.2)

/-- `EmotionDetector._fallback_detection` (attached_assets version):
keyword classification plus the TextBlob sentiment score, the latter
modelled by the abstract total function `senti` (its own exceptions are
caught internally and yield 0.0). -/
def fallback_detection (senti : List Char → ℚ) (t : List Char) :
    String × ℚ × ℚ :=
  let r := fallbackCore keyword_table (8 / 10) (2 / 10) t
  (r.1, r.2, senti t)

/-- `EmotionDetector._fallback_emotion_detection` (ml_utils version):
blank text short-circuits to `(neutral, 0.5)`, otherwise keyword scoring
with cap 0.9 and weight 0.3. -/
def fallback_emotion_detection (t : List Char) : String × ℚ :=
  if isBlank t then ("neutral", 1 / 2)
  else fallbackCore ml_keyword_table (9 / 10) (3 / 10) t

/-- The externally loaded artifacts of the trained-model path.
`available` models the `self.model and self.vectorizer` truthiness check;
`predictDecode` models the whole body of the try-block of
`_predict_with_model` (vectorize, predict, take the max probability,
decode the label), with `none` standing for an exception raised anywhere
inside it. -/
structure ModelOracle where
  available : Bool
  predictDecode : List Char → Option (String × ℚ)

/-- `EmotionDetector._predict_with_model`: on success return the decoded
label, the confidence and the sentiment score; on any exception fall back
to `_fallback_detection` for this single call. -/
def predict_with_model (o : ModelOracle) (senti : List Char → ℚ)
    (t : List Char) : String × ℚ × ℚ :=
  match o.predictDecode t with
  | some r => (r.1, r.2, senti t)
  | none => fallback_detection senti t

/-- `EmotionDetector.detect_emotion`: blank text yields the fixed neutral
reading, otherwise the trained-model path when available, otherwise the
keyword fallback.  Every failure inside is handled (the outer broad
`except` never fires in this model because all callees are total). -/
def detect_emotion (o : ModelOracle) (senti : List Char → ℚ)
    (t : List Char) : String × ℚ × ℚ :=
  if isBlank t then ("neutral", 1 / 2, 0)
  else if o.available then predict_with_model o senti t
  else fallback_detection senti t

/-- `EmotionDetector.calculate_intensity`: fold sentiment into confidence
for valenced emotions and clamp the result to [0, 1]. -/
def calculate_intensity (emotion : String) (confidence sentiment_score : ℚ) :
    ℚ :=
  let base_intensity := confidence
  let intensity :=
    if emotion ∈ (["joy", "love"] : List String) then
      base_intensity * (1 + sentiment_score * (1 / 2))
    else if emotion ∈ (["sadness", "anger", "fear"] : List String) then
      base_intensity * (1 - sentiment_score * (1 / 2))
    else base_intensity
  ratMax 0 (ratMin 1 intensity)

/-- The spec side of claim C3, written from the specification text:
`base = confidence`; joy/love scale by `(1 + sentiment * 0.5)`,
sadness/anger/fear by `(1 - sentiment * 0.5)`, otherwise `base`. -/
def intensity_formula (emotion : String) (confidence sentiment : ℚ) : ℚ :=
  if emotion = "joy" ∨ emotion = "love" then
    confidence * (1 + sentiment * (1 / 2))
  else if emotion = "sadness" ∨ emotion = "anger" ∨ emotion = "fear" then
    confidence * (1 - sentiment * (1 / 2))
  else confidence

/-- Clamp to the unit interval, as `max(0.0, min(1.0, intensity))`. -/
def clamp01 (x : ℚ) : ℚ :=
  ratMax 0 (ratMin 1 x)

/-- The closed 7-label set `self.emotion_labels`. -/
def emotion_labels : List String :=
  ["joy", "sadness", "anger", "fear", "surprise", "love", "neutral"]

/-- Maximum keyword score over the whole table (0 when nothing matches). -/
def table_max (table : List (String × List String)) (t : List Char) : Nat :=
  table.foldr (fun p m => max (kwScore p.2 (lowerText t)) m) 0

/-- Maximum score of an already-scored list. -/
def listMax2 (l : List (String × Nat)) : Nat :=
  l.foldr (fun p m => max p.2 m) 0

/-- First-occurrence deduplication, in order: the key list of a Python
dict/Counter built by insertion. -/
def first_dedup {α : Type} [DecidableEq α] : List α → List α
  | [] => []
  | a :: l => a :: (first_dedup l).filter (fun b => b ≠ a)

/-- One persisted `EmotionHistory` row as the analytics engine reads it:
the emotion label, the (nullable) intensity, the (nullable) sentiment
score, and the calendar date of its timestamp encoded as a day number. -/
structure EmotionRecord where
  emotion : String
  intensity : Option ℚ
  sentiment_score : Option ℚ
  date : Nat
deriving DecidableEq

/-- Python `emotion.intensity or 0.5`: a missing intensity, and by
truthiness also a stored 0.0, reads as 0.5. -/
def pyIntensity (r : EmotionRecord) : ℚ :=
  match r.intensity with
  | none => 1 / 2
  | some v => if v = 0 then 1 / 2 else v

/-- `EmotionAnalytics.get_emotion_distribution` on the already-filtered
record list: Counter the emotions and return `(count / total) * 100` per
occurring emotion; empty input gives the empty dict. -/
def get_emotion_distribution (rs : List EmotionRecord) : List (String × ℚ) :=
  if rs.isEmpty then []
  else
    let es := rs.map (fun r => r.emotion)
    (first_dedup es).map (fun e => (e, ((es.count e : ℚ) / (es.length : ℚ)) * 100))

/-- The `emotion_categories` dict of `get_emotional_balance`. -/
def emotion_categories : List (String × List String) :=
  [("Positive", ["joy", "love", "surprise"]),
   ("Negative", ["sadness", "anger", "fear"]),
   ("Neutral", ["neutral"])]

/-- Per-category body of `get_emotional_balance`: collect the intensities
of the records whose emotion lies in the category and average them, 0 when
none match. -/
def category_score (rs : List EmotionRecord) (cats : List String) : ℚ :=
  let scores := (rs.filter (fun r => cats.contains r.emotion)).map pyIntensity
  if scores.isEmpty then 0 else scores.sum / (scores.length : ℚ)

/-- `EmotionAnalytics.get_emotional_balance` on the filtered record list. -/
def get_emotional_balance (rs : List EmotionRecord) : List (String × ℚ) :=
  if rs.isEmpty then []
  else emotion_categories.map (fun c => (c.1, category_score rs c.2))

/-- The `/api/analytics/emotional-balance` route body (routes.py): it does
NOT use the category table at all; it returns, for each occurring emotion,
the normalized frequency share `count / total`. -/
def routes_emotional_balance (es : List String) : List (String × ℚ) :=
  if es.isEmpty then []
  else (first_dedup es).map (fun e => (e, (es.count e : ℚ) / (es.length : ℚ)))

/-- The expression `Counter(es).most_common(1)[0][0]` with the N/A default:
the stable descending sort by count used by Python returns the first emotion, in
first-occurrence order, attaining the maximal count. -/
def most_common_emotion (es : List String) : String :=
  match (first_dedup es).map (fun e => (e, es.count e)) with
  | [] => "N/A"
  | hd :: rest => (pickFirstMax hd rest).1

/-- Python `round` at integer precision: round half to even. -/
def pyRound (x : ℚ) : ℤ :=
  let f := Int.floor x
  let r := x - f
  if r < 1 / 2 then f
  else if 1 / 2 < r then f + 1
  else if f % 2 = 0 then f else f + 1

/-- `round(x, 3)`. -/
def round3 (x : ℚ) : ℚ :=
  (pyRound (x * 1000) : ℚ) / 1000

/-- `EmotionAnalytics.get_summary_stats` on the filtered record list,
returning (total_entries, most_common_emotion, average_sentiment,
days_tracked). -/
def get_summary_stats (rs : List EmotionRecord) : Nat × String × ℚ × Nat :=
  if rs.isEmpty then (0, "N/A", 0, 0)
  else
    let es := rs.map (fun r => r.emotion)
    let sents := rs.filterMap (fun r => r.sentiment_score)
    let avg : ℚ := if sents.isEmpty then 0 else sents.sum / (sents.length : ℚ)
    (rs.length, most_common_emotion es, round3 avg,
      (first_dedup (rs.map (fun r => r.date))).length)

/-- One `Conversation` row as the routes-level analytics endpoints read it:
a nullable emotion, a nullable sentiment score and a day number. -/
structure ConversationRecord where
  emotion : Option String
  sentiment_score : Option ℚ
  date : Nat
deriving DecidableEq

/-- The `/api/analytics/summary` route body (routes.py): it defaults
`most_common_emotion` to the string neutral, keeps only truthy emotions
(so `None` and the empty string are dropped), and does not round the
average sentiment. -/
def analytics_summary (cs : List ConversationRecord) :
    Nat × String × ℚ × Nat :=
  let emotions := cs.filterMap (fun c =>
    match c.emotion with
    | some e => if e = "" then none else some e
    | none => none)
  let mce := if emotions.isEmpty then "neutral" else most_common_emotion emotions
  let sents := cs.filterMap (fun c => c.sentiment_score)
  let avg : ℚ := if sents.isEmpty then 0 else sents.sum / (sents.length : ℚ)
  (cs.length, mce, avg, (first_dedup (cs.map (fun c => c.date))).length)

/-- A model oracle whose decode step yields a label outside the closed
7-label set, as a loaded label encoder with foreign classes would. -/
def bad_label_oracle : ModelOracle :=
  ⟨true, fun _ => some ("disgust", 9 / 10)⟩

/-- A model oracle that is available but whose inference always raises. -/
def failing_oracle : ModelOracle :=
  ⟨true, fun _ => none⟩

/-- A model oracle that never loaded (fallback-only mode). -/
def no_model_oracle : ModelOracle :=
  ⟨false, fun _ => none⟩

/-- Concrete record set with emotions [joy, joy, sadness]. -/
def dist_records : List EmotionRecord :=
  [⟨"joy", none, none, 0⟩, ⟨"joy", none, none, 0⟩, ⟨"sadness", none, none, 1⟩]

/-- Concrete record set with one joy record of intensity 0.8. -/
def balance_records : List EmotionRecord :=
  [⟨"joy", some (4 / 5), none, 0⟩]

theorem ratMin_eq_min (a b : ℚ) : ratMin a b = min a b := by
  rw [ratMin, min_def]

theorem ratMax_eq_max (a b : ℚ) : ratMax a b = max a b := by
  rw [ratMax, max_def]

/-- Claim C2: on empty or whitespace-only text, detection returns exactly
the fixed neutral reading (neutral, 0.5, 0.0), and the derived intensity
for that reading is 0.5. -/
theorem detect_emotion_blank_case (o : ModelOracle) (senti : List Char → ℚ)
    (t : List Char) (h : isBlank t = true) :
    detect_emotion o senti t = ("neutral", 1 / 2, 0) ∧
    calculate_intensity "neutral" (1 / 2) 0 = 1 / 2 := by
  constructor
  · simp [detect_emotion, h]
  · norm_num [calculate_intensity, ratMax, ratMin]

/-- Witness for C2: the three-space text is blank and detection on it
returns the fixed neutral reading. -/
theorem detect_emotion_blank_case_witness :
    isBlank ("   ".toList) = true ∧
    detect_emotion no_model_oracle (fun _ => 0) ("   ".toList) =
      ("neutral", 1 / 2, 0) :=
  ⟨by decide,
   (detect_emotion_blank_case no_model_oracle (fun _ => 0) ("   ".toList)
     (by decide)).1⟩

/-- Claim C3: the computed intensity equals the spec formula clamped to
[0, 1], and in particular always lies in [0, 1]. -/
theorem calculate_intensity_correct (e : String) (c s : ℚ)
    (hc0 : 0 ≤ c) (hc1 : c ≤ 1) (hs0 : -1 ≤ s) (hs1 : s ≤ 1) :
    calculate_intensity e c s = clamp01 (intensity_formula e c s) ∧
    0 ≤ calculate_intensity e c s ∧ calculate_intensity e c s ≤ 1 := by
  refine ⟨?_, ?_, ?_⟩
  · simp only [calculate_intensity, clamp01, intensity_formula,
      List.mem_cons, List.not_mem_nil, or_false]
  · simp only [calculate_intensity, ratMax_eq_max, ratMin_eq_min]
    exact le_max_left 0 _
  · simp only [calculate_intensity, ratMax_eq_max, ratMin_eq_min]
    exact max_le (by norm_num) (min_le_left 1 _)

/-- Witness for C3 at emotion joy, confidence 1/2, sentiment 1/2. -/
theorem calculate_intensity_correct_witness :
    (0 : ℚ) ≤ 1 / 2 ∧
    calculate_intensity "joy" (1 / 2) (1 / 2) =
      clamp01 (intensity_formula "joy" (1 / 2) (1 / 2)) :=
  ⟨by norm_num,
   (calculate_intensity_correct "joy" (1 / 2) (1 / 2) (by norm_num)
     (by norm_num) (by norm_num) (by norm_num)).1⟩

/-- Claim C4: if the trained-model path raises on this call, the detector
catches it and the call degrades to the keyword fallback (blank text still
short-circuits first); no exception reaches the caller, as every failure
is a handled `Option` in this model. -/
theorem detect_emotion_degrades_on_failure (o : ModelOracle)
    (senti : List Char → ℚ) (t : List Char)
    (h : o.predictDecode t = none) :
    detect_emotion o senti t =
      (if isBlank t then ("neutral", (1 : ℚ) / 2, (0 : ℚ))
       else fallback_detection senti t) := by
  by_cases hb : isBlank t
  · simp [detect_emotion, hb]
  · by_cases ha : o.available = true
    · simp [detect_emotion, hb, ha, predict_with_model, h]
    · simp [detect_emotion, hb, ha]

/-- Witness for C4: an available oracle that always raises degrades the
call on the text sad to the keyword fallback result (sadness, 0.5, 0.0). -/
theorem detect_emotion_degrades_on_failure_witness :
    failing_oracle.predictDecode ("sad".toList) = none ∧
    detect_emotion failing_oracle (fun _ => 0) ("sad".toList) =
      ("sadness", 1 / 2, 0) :=
  ⟨rfl,
   (detect_emotion_degrades_on_failure failing_oracle (fun _ => 0)
     ("sad".toList) rfl).trans (by
       have hsc : scoredList keyword_table (lowerText ("sad".toList)) =
           [("sadness", 1)] := by decide
       rw [if_neg (by decide)]
       simp only [fallback_detection, fallbackCore, hsc, pickFirstMax,
         List.foldl_nil]
       norm_num [confFn, ratMin])⟩

theorem pickFirstMax_mem (rest : List (String × Nat)) :
    ∀ hd : String × Nat, pickFirstMax hd rest ∈ hd :: rest := by
  induction rest with
  | nil => intro hd; simp [pickFirstMax]
  | cons x rest ih =>
      intro hd
      rw [pickFirstMax, List.foldl_cons]
      by_cases h : hd.2 < x.2
      · simp only [h, if_pos]
        have := ih x
        rw [pickFirstMax] at this
        simp only [List.mem_cons] at this ⊢
        tauto
      · simp only [h, if_neg, not_false_iff]
        have := ih hd
        rw [pickFirstMax] at this
        simp only [List.mem_cons] at this ⊢
        tauto

theorem mem_scoredList (table : List (String × List String)) (tl : List Char)
    (q : String × Nat) (hq : q ∈ scoredList table tl) :
    0 < q.2 ∧ ∃ p ∈ table, p.1 = q.1 ∧ kwScore p.2 tl = q.2 := by
  rw [scoredList, List.mem_filterMap] at hq
  obtain ⟨p, hp, hpq⟩ := hq
  by_cases h : 0 < kwScore p.2 tl
  · simp only [h, if_pos] at hpq
    cases hpq
    exact ⟨h, p, hp, rfl, rfl⟩
  · simp only [h, if_neg, not_false_iff] at hpq
    cases hpq

theorem fallbackCore_label (table : List (String × List String)) (cap w : ℚ)
    (t : List Char) :
    (fallbackCore table cap w t).1 = "neutral" ∨
    (fallbackCore table cap w t).1 ∈ table.map Prod.fst := by
  rw [fallbackCore]
  cases hsc : scoredList table (lowerText t) with
  | nil => exact Or.inl rfl
  | cons hd rest =>
      right
      have hmem : pickFirstMax hd rest ∈ hd :: rest := pickFirstMax_mem rest hd
      rw [← hsc] at hmem
      obtain ⟨-, p, hp, hp1, -⟩ := mem_scoredList table (lowerText t) _ hmem
      exact hp1 ▸ List.mem_map_of_mem Prod.fst hp

/-- Claim C1 (amended): whenever the keyword fallback produces the label
(no usable model, or a model-path exception), both detectors return a
label inside the closed 7-label set; the trained-model path itself is
unchecked (see the counterexample). -/
theorem detect_emotion_fallback_label_closed (o : ModelOracle)
    (senti : List Char → ℚ) (t : List Char)
    (h : o.available = false ∨ o.predictDecode t = none) :
    (detect_emotion o senti t).1 ∈ emotion_labels ∧
    (fallback_emotion_detection t).1 ∈ emotion_labels := by
  have hcore : ∀ (table : List (String × List String)) (cap w : ℚ),
      table.map Prod.fst ⊆ emotion_labels →
      (fallbackCore table cap w t).1 ∈ emotion_labels := by
    intro table cap w hsub
    rcases fallbackCore_label table cap w t with h1 | h1
    · rw [h1]; decide
    · exact hsub h1
  constructor
  · rw [detect_emotion]
    by_cases hb : isBlank t
    · simp only [hb, if_pos]; decide
    · simp only [hb, Bool.false_eq_true, if_neg, not_false_iff]
      rcases h with ha | hp
      · rw [ha]
        simp only [Bool.false_eq_true, if_neg, not_false_iff,
          fallback_detection]
        exact hcore keyword_table (8 / 10) (2 / 10) (by decide)
      · by_cases ha : o.available = true
        · simp only [ha, if_pos, predict_with_model, hp, fallback_detection]
          exact hcore keyword_table (8 / 10) (2 / 10) (by decide)
        · simp only [ha, if_neg, not_false_iff, fallback_detection]
          exact hcore keyword_table (8 / 10) (2 / 10) (by decide)
  · rw [fallback_emotion_detection]
    by_cases hb : isBlank t
    · simp only [hb, if_pos]; decide
    · simp only [hb, Bool.false_eq_true, if_neg, not_false_iff]
      exact hcore ml_keyword_table (9 / 10) (3 / 10) (by decide)

/-- Witness for C1 (amended): with no model loaded, detection on the text
hi stays inside the closed label set. -/
theorem detect_emotion_fallback_label_closed_witness :
    no_model_oracle.available = false ∧
    (detect_emotion no_model_oracle (fun _ => 0) ("hi".toList)).1 ∈
      emotion_labels :=
  ⟨rfl,
   (detect_emotion_fallback_label_closed no_model_oracle (fun _ => 0)
     ("hi".toList) (Or.inl rfl)).1⟩

/-- Counterexample for C1: a loaded decoder with foreign classes makes the
trained-model path return the label disgust, which is outside the closed
7-label set, and `detect_emotion` passes it through unchecked. -/
theorem detect_emotion_escapes_label_set :
    (detect_emotion bad_label_oracle (fun _ => 0) ("hi".toList)).1 =
      "disgust" ∧ "disgust" ∉ emotion_labels := by
  constructor
  · rfl
  · decide

theorem listMax2_cons (p : String × Nat) (l : List (String × Nat)) :
    listMax2 (p :: l) = max p.2 (listMax2 l) := rfl

theorem le_listMax2 (l : List (String × Nat)) (p : String × Nat)
    (hp : p ∈ l) : p.2 ≤ listMax2 l := by
  induction l with
  | nil => cases hp
  | cons q l ih =>
      rw [listMax2_cons]
      rcases List.mem_cons.mp hp with h | h
      · exact h ▸ le_max_left _ _
      · exact le_trans (ih h) (le_max_right _ _)

theorem find_pickFirstMax (rest : List (String × Nat)) :
    ∀ hd : String × Nat,
      (hd :: rest).find? (fun x => decide (listMax2 (hd :: rest) ≤ x.2)) =
        some (pickFirstMax hd rest) := by
  induction rest with
  | nil =>
      intro hd
      simp [pickFirstMax, listMax2, List.find?]
  | cons x rest ih =>
      intro hd
      by_cases h : hd.2 < x.2
      · have hM : listMax2 (hd :: x :: rest) = listMax2 (x :: rest) := by
          simp only [listMax2_cons]
          omega
        have hpick : pickFirstMax hd (x :: rest) = pickFirstMax x rest := by
          rw [pickFirstMax, List.foldl_cons, if_pos h, pickFirstMax]
        rw [hpick, ← ih x]
        rw [List.find?_cons]
        have hfalse : decide (listMax2 (hd :: x :: rest) ≤ hd.2) = false := by
          simp only [hM, decide_eq_false_iff_not, not_le, listMax2_cons]
          omega
        rw [hfalse]
        simp only [hM]
      · have hM : listMax2 (hd :: x :: rest) = listMax2 (hd :: rest) := by
          simp only [listMax2_cons]
          omega
        have hpick : pickFirstMax hd (x :: rest) = pickFirstMax hd rest := by
          rw [pickFirstMax, List.foldl_cons, if_neg h, pickFirstMax]
        rw [hpick]
        have ihhd := ih hd
        by_cases hh : listMax2 (hd :: rest) ≤ hd.2
        · have : (hd :: rest).find?
              (fun x => decide (listMax2 (hd :: rest) ≤ x.2)) = some hd := by
            rw [List.find?_cons, decide_eq_true hh]
          rw [this] at ihhd
          rw [List.find?_cons, hM, decide_eq_true hh]
          exact congrArg some (Option.some.inj ihhd)
        · rw [List.find?_cons] at ihhd
          rw [decide_eq_false hh] at ihhd
          rw [List.find?_cons, hM, decide_eq_false hh, List.find?_cons]
          have hx : decide (listMax2 (hd :: rest) ≤ x.2) = false := by
            simp only [decide_eq_false_iff_not, not_le]
            exact lt_of_le_of_lt (Nat.not_lt.mp h) (Nat.not_le.mp hh)
          rw [hx]
          exact ihhd

theorem pickFirstMax_score (rest : List (String × Nat)) (hd : String × Nat) :
    (pickFirstMax hd rest).2 = listMax2 (hd :: rest) := by
  have h := find_pickFirstMax rest hd
  have h1 := List.find?_some h
  have h2 := List.mem_of_find?_eq_some h
  exact le_antisymm (le_listMax2 _ _ h2) (of_decide_eq_true h1)

theorem listMax2_scoredList (tl : List Char) :
    ∀ table : List (String × List String),
      listMax2 (scoredList table tl) =
        table.foldr (fun p m => max (kwScore p.2 tl) m) 0 := by
  intro table
  induction table with
  | nil => rfl
  | cons p rest ih =>
      by_cases h : 0 < kwScore p.2 tl
      · have hstep : scoredList (p :: rest) tl =
            (p.1, kwScore p.2 tl) :: scoredList rest tl := by
          simp only [scoredList, List.filterMap_cons, h, if_pos]
        rw [hstep, listMax2_cons, ih, List.foldr_cons]
      · have h0 : kwScore p.2 tl = 0 := Nat.eq_zero_of_not_pos h
        have hstep : scoredList (p :: rest) tl = scoredList rest tl := by
          simp only [scoredList, List.filterMap_cons, h, if_neg,
            not_false_iff]
        rw [hstep, ih, List.foldr_cons, h0, Nat.zero_max]

theorem scoredList_max_eq (table : List (String × List String))
    (t : List Char) :
    listMax2 (scoredList table (lowerText t)) = table_max table t :=
  listMax2_scoredList (lowerText t) table

theorem le_table_max (table : List (String × List String)) (t : List Char)
    (p : String × List String) (hp : p ∈ table) :
    kwScore p.2 (lowerText t) ≤ table_max table t := by
  induction table with
  | nil => cases hp
  | cons q rest ih =>
      rw [table_max, List.foldr_cons]
      rcases List.mem_cons.mp hp with h | h
      · subst h; exact le_max_left _ _
      · exact le_trans (ih h) (le_max_right _ _)

theorem find_table_scored (tl : List Char) (M : Nat) (hM : 0 < M) :
    ∀ table : List (String × List String),
      (∀ p ∈ table, kwScore p.2 tl ≤ M) →
      (table.find? (fun p => kwScore p.2 tl == M)).map Prod.fst =
        ((scoredList table tl).find? (fun q => decide (M ≤ q.2))).map
          Prod.fst := by
  intro table
  induction table with
  | nil => intro _; rfl
  | cons p rest ih =>
      intro hbd
      have hple : kwScore p.2 tl ≤ M := hbd p (List.mem_cons_self p rest)
      have hrest : ∀ q ∈ rest, kwScore q.2 tl ≤ M :=
        fun q hq => hbd q (List.mem_cons_of_mem p hq)
      by_cases h1 : kwScore p.2 tl = M
      · have hpos : 0 < kwScore p.2 tl := h1 ▸ hM
        have hstep : scoredList (p :: rest) tl =
            (p.1, kwScore p.2 tl) :: scoredList rest tl := by
          simp only [scoredList, List.filterMap_cons, hpos, if_pos]
        rw [hstep, List.find?_cons, List.find?_cons]
        have c1 : (kwScore p.2 tl == M) = true := beq_iff_eq.mpr h1
        have c2 : decide (M ≤ (p.1, kwScore p.2 tl).2) = true :=
          decide_eq_true (by simp [h1])
        rw [c1, c2]
        rfl
      · have hfalse : (kwScore p.2 tl == M) = false := by
          simp only [beq_eq_false_iff_ne, ne_eq]
          exact h1
        by_cases h2 : 0 < kwScore p.2 tl
        · have hstep : scoredList (p :: rest) tl =
              (p.1, kwScore p.2 tl) :: scoredList rest tl := by
            simp only [scoredList, List.filterMap_cons, h2, if_pos]
          rw [hstep, List.find?_cons, List.find?_cons, hfalse]
          have hlt : decide (M ≤ kwScore p.2 tl) = false := by
            simp only [decide_eq_false_iff_not, not_le]
            exact lt_of_le_of_ne hple h1
          rw [hlt]
          exact ih hrest
        · have hstep : scoredList (p :: rest) tl = scoredList rest tl := by
            simp only [scoredList, List.filterMap_cons, h2, if_neg,
              not_false_iff]
          rw [hstep, List.find?_cons, hfalse]
          exact ih hrest

/-- Claim C5: whenever at least one keyword matches (and in particular on
ties of the maximal score between distinct emotions), the keyword fallback
returns the first emotion attaining the maximal score in the declared
iteration order of the keyword table. -/
theorem fallback_first_max_wins (table : List (String × List String))
    (cap w : ℚ) (t : List Char) (hpos : 0 < table_max table t)
    (htie : ∃ p ∈ table, ∃ q ∈ table, p.1 ≠ q.1 ∧
      kwScore p.2 (lowerText t) = table_max table t ∧
      kwScore q.2 (lowerText t) = table_max table t) :
    (table.find? (fun p =>
        kwScore p.2 (lowerText t) == table_max table t)).map Prod.fst =
      some ((fallbackCore table cap w t).1) := by
  clear htie
  have hD := scoredList_max_eq table t
  cases hsc : scoredList table (lowerText t) with
  | nil =>
      rw [hsc] at hD
      exact absurd (hD ▸ hpos) (by simp [listMax2])
  | cons hd rest =>
      have hres : (fallbackCore table cap w t).1 = (pickFirstMax hd rest).1 := by
        simp only [fallbackCore, hsc]
      rw [hres]
      have hA := find_pickFirstMax rest hd
      rw [hsc] at hD
      rw [hD] at hA
      have hE := find_table_scored (lowerText t) (table_max table t) hpos
        table (fun p hp => le_table_max table t p hp)
      rw [hsc, hA] at hE
      rw [hE]
      rfl

/-- Witness for C5: on the text happy sad, joy and sadness tie with one
keyword hit each and the fallback returns joy, the first maximal entry in
table order. -/
theorem fallback_first_max_wins_witness :
    0 < table_max keyword_table ("happy sad".toList) ∧
    (keyword_table.find? (fun p =>
        kwScore p.2 (lowerText ("happy sad".toList)) ==
          table_max keyword_table ("happy sad".toList))).map Prod.fst =
      some ((fallbackCore keyword_table (8 / 10) (2 / 10)
        ("happy sad".toList)).1) :=
  ⟨by decide,
   fallback_first_max_wins keyword_table (8 / 10) (2 / 10)
     ("happy sad".toList) (by decide) (by decide)⟩

theorem fallbackCore_all_zero (table : List (String × List String))
    (cap w : ℚ) (t : List Char) (h : table_max table t = 0) :
    fallbackCore table cap w t = ("neutral", 1 / 2) := by
  have hD := scoredList_max_eq table t
  rw [fallbackCore]
  cases hsc : scoredList table (lowerText t) with
  | nil => rfl
  | cons hd rest =>
      exfalso
      have hmem : hd ∈ scoredList table (lowerText t) := by
        rw [hsc]; exact List.mem_cons_self hd rest
      have hp := (mem_scoredList table (lowerText t) hd hmem).1
      have hle := le_listMax2 _ hd hmem
      rw [hD, h] at hle
      omega

theorem fallbackCore_conf_eq (table : List (String × List String))
    (cap w : ℚ) (t : List Char) (h : 0 < table_max table t) :
    (fallbackCore table cap w t).2 = confFn cap w (table_max table t) := by
  have hD := scoredList_max_eq table t
  rw [fallbackCore]
  cases hsc : scoredList table (lowerText t) with
  | nil =>
      rw [hsc] at hD
      exact absurd (hD ▸ h) (by simp [listMax2])
  | cons hd rest =>
      rw [hsc] at hD
      have hscore := pickFirstMax_score rest hd
      rw [hD] at hscore
      simp only [hscore]

theorem confFn_mono (cap w : ℚ) (hw : 0 ≤ w) (s1 s2 : Nat) (h : s1 ≤ s2) :
    confFn cap w s1 ≤ confFn cap w s2 := by
  rw [confFn, confFn, ratMin_eq_min, ratMin_eq_min]
  refine min_le_min le_rfl (add_le_add_right ?_ _)
  exact mul_le_mul_of_nonneg_right (Nat.cast_le.mpr h) hw

theorem confFn_lt_one (cap w : ℚ) (hcap : cap < 1) (s : Nat) :
    confFn cap w s < 1 := by
  rw [confFn, ratMin_eq_min]
  exact lt_of_le_of_lt (min_le_left _ _) hcap

theorem pyIsSpace_ofNat_shifted (m : Nat) (h1 : 97 ≤ m) (h2 : m ≤ 122) :
    pyIsSpace (Char.ofNat m) = false := by
  interval_cases m <;> decide

theorem pyIsSpace_pyToLower (c : Char) :
    pyIsSpace (pyToLower c) = pyIsSpace c := by
  rw [pyToLower]
  by_cases h : 65 ≤ c.toNat ∧ c.toNat ≤ 90
  · rw [if_pos h]
    have hupper : pyIsSpace c = false := by
      rw [pyIsSpace]
      have h1 := h.1
      simp only [Bool.or_eq_false_iff, beq_eq_false_iff_ne, ne_eq]
      omega
    rw [hupper]
    exact pyIsSpace_ofNat_shifted (c.toNat + 32) (by omega) (by omega)
  · rw [if_neg h]

theorem containsSub_head_mem (c : Char) (k : List Char) :
    ∀ l : List Char, containsSub (c :: k) l = true → c ∈ l := by
  intro l
  induction l with
  | nil => intro h; cases h
  | cons d rest ih =>
      intro h
      rw [containsSub, Bool.or_eq_true] at h
      rcases h with h | h
      · rw [List.isPrefixOf] at h
        rw [Bool.and_eq_true, beq_iff_eq] at h
        exact h.1 ▸ List.mem_cons_self d rest
      · exact List.mem_cons_of_mem d (ih h)

theorem not_blank_of_hit (kw : List Char) (t : List Char) (hne : kw ≠ [])
    (hns : ∀ c ∈ kw, pyIsSpace c = false)
    (h : containsSub kw (lowerText t) = true) : isBlank t = false := by
  cases kw with
  | nil => exact absurd rfl hne
  | cons c k =>
      have hc : c ∈ lowerText t := containsSub_head_mem c k (lowerText t) h
      rw [lowerText] at hc
      obtain ⟨c0, hc0, hlow⟩ := List.mem_map.mp hc
      have hcs : pyIsSpace c0 = false := by
        rw [← pyIsSpace_pyToLower, hlow]
        exact hns c (List.mem_cons_self c k)
      cases hb : isBlank t with
      | false => rfl
      | true =>
          exfalso
          rw [isBlank, List.all_eq_true] at hb
          exact absurd (hb c0 hc0) (by rw [hcs]; exact Bool.false_ne_true)

theorem exists_hit_of_table_max_pos (t : List Char) :
    ∀ table : List (String × List String), 0 < table_max table t →
      ∃ p ∈ table, ∃ kw ∈ p.2, containsSub kw.toList (lowerText t) = true := by
  intro table
  induction table with
  | nil => intro h; cases h
  | cons p rest ih =>
      intro h
      rw [table_max, List.foldr_cons] at h
      rcases Nat.lt_or_ge 0 (kwScore p.2 (lowerText t)) with hp | hp
      · rw [kwScore] at hp
        have hne : (p.2.filter
            (fun kw => containsSub kw.toList (lowerText t))) ≠ [] := by
          intro hnil
          rw [hnil] at hp
          cases hp
        obtain ⟨kw, hkw⟩ := List.exists_mem_of_ne_nil _ hne
        have hmem := List.mem_filter.mp hkw
        exact ⟨p, List.mem_cons_self p rest, kw, hmem.1, hmem.2⟩
      · have hrest : 0 < table_max rest t := by
          rw [table_max]
          omega
        obtain ⟨q, hq, kw, hkw, hc⟩ := ih hrest
        exact ⟨q, List.mem_cons_of_mem p hq, kw, hkw, hc⟩

theorem ml_table_keywords_sane :
    ∀ p ∈ ml_keyword_table, ∀ kw ∈ p.2,
      kw.toList ≠ [] ∧ ∀ c ∈ kw.toList, pyIsSpace c = false := by
  decide

theorem ml_pos_not_blank (t : List Char)
    (h : 0 < table_max ml_keyword_table t) : isBlank t = false := by
  obtain ⟨p, hp, kw, hkw, hc⟩ :=
    exists_hit_of_table_max_pos t ml_keyword_table h
  have hsane := ml_table_keywords_sane p hp kw hkw
  exact not_blank_of_hit kw.toList t hsane.1 hsane.2 hc

/-- Claim C6: for both fallback classifiers, a text with no keyword hit of
any emotion yields exactly (neutral, 0.5); otherwise the returned
confidence is `confFn` of the winning (maximal) keyword-hit count, a
function that is non-decreasing in the count, and is strictly below 1. -/
theorem fallback_confidence_spec (t : List Char) :
    (table_max keyword_table t = 0 →
      fallbackCore keyword_table (8 / 10) (2 / 10) t = ("neutral", 1 / 2)) ∧
    (0 < table_max keyword_table t →
      (fallbackCore keyword_table (8 / 10) (2 / 10) t).2 =
        confFn (8 / 10) (2 / 10) (table_max keyword_table t) ∧
      (fallbackCore keyword_table (8 / 10) (2 / 10) t).2 < 1) ∧
    (∀ s1 s2 : Nat, s1 ≤ s2 →
      confFn (8 / 10) (2 / 10) s1 ≤ confFn (8 / 10) (2 / 10) s2) ∧
    (table_max ml_keyword_table t = 0 →
      fallback_emotion_detection t = ("neutral", 1 / 2)) ∧
    (0 < table_max ml_keyword_table t →
      (fallback_emotion_detection t).2 =
        confFn (9 / 10) (3 / 10) (table_max ml_keyword_table t) ∧
      (fallback_emotion_detection t).2 < 1) ∧
    (∀ s1 s2 : Nat, s1 ≤ s2 →
      confFn (9 / 10) (3 / 10) s1 ≤ confFn (9 / 10) (3 / 10) s2) := by
  refine ⟨?_, ?_, ?_, ?_, ?_, ?_⟩
  · intro h
    exact fallbackCore_all_zero keyword_table _ _ t h
  · intro h
    refine ⟨fallbackCore_conf_eq keyword_table _ _ t h, ?_⟩
    rw [fallbackCore_conf_eq keyword_table _ _ t h]
    exact confFn_lt_one _ _ (by norm_num) _
  · intro s1 s2 h
    exact confFn_mono _ _ (by norm_num) s1 s2 h
  · intro h
    rw [fallback_emotion_detection]
    by_cases hb : isBlank t
    · rw [if_pos hb]
    · rw [if_neg hb]
      exact fallbackCore_all_zero ml_keyword_table _ _ t h
  · intro h
    have hb := ml_pos_not_blank t h
    rw [fallback_emotion_detection, hb]
    simp only [Bool.false_eq_true, if_false]
    refine ⟨fallbackCore_conf_eq ml_keyword_table _ _ t h, ?_⟩
    rw [fallbackCore_conf_eq ml_keyword_table _ _ t h]
    exact confFn_lt_one _ _ (by norm_num) _
  · intro s1 s2 h
    exact confFn_mono _ _ (by norm_num) s1 s2 h

/-- Witness for C6: the text nothing particular happened hits no keyword
and yields (neutral, 0.5) from the attached-assets fallback. -/
theorem fallback_confidence_spec_witness :
    table_max keyword_table ("nothing particular happened".toList) = 0 ∧
    fallbackCore keyword_table (8 / 10) (2 / 10)
      ("nothing particular happened".toList) = ("neutral", 1 / 2) :=
  ⟨by decide,
   (fallback_confidence_spec ("nothing particular happened".toList)).1
     (by decide)⟩

/-- Claim C10: in the ml_utils fallback, the keyword love belongs to both
the joy and the love lists; any text whose only keyword hit (across the
whole table) is love therefore scores joy and love equally at 1 and is
classified as (joy, 0.6), never as love, since joy precedes love in the
iteration order of the table. -/
theorem ml_love_only_hit (t : List Char)
    (h1 : ∀ p ∈ ml_keyword_table, ∀ kw ∈ p.2,
      containsSub kw.toList (lowerText t) = (kw == "love")) :
    fallback_emotion_detection t = ("joy", 3 / 5) := by
  have hlove : containsSub ("love".toList) (lowerText t) = true := by
    have h := h1 ("love", ["love", "adore", "cherish", "romantic",
      "affection", "caring"]) (by decide) "love" (by decide)
    rw [h]
    rfl
  have hblank : isBlank t = false :=
    not_blank_of_hit ("love".toList) t (by decide) (by decide) hlove
  have hjoy : kwScore ["happy", "joy", "excited", "great", "wonderful",
      "amazing", "fantastic", "love", "awesome"] (lowerText t) = 1 := by
    rw [kwScore, List.filter_congr (fun kw hkw => h1 ("joy", ["happy",
      "joy", "excited", "great", "wonderful", "amazing", "fantastic",
      "love", "awesome"]) (by decide) kw hkw)]
    decide
  have hsad : kwScore ["sad", "depressed", "upset", "down", "crying",
      "tears", "lonely", "grief"] (lowerText t) = 0 := by
    rw [kwScore, List.filter_congr (fun kw hkw => h1 ("sadness", ["sad",
      "depressed", "upset", "down", "crying", "tears", "lonely", "grief"])
      (by decide) kw hkw)]
    decide
  have hang : kwScore ["angry", "mad", "furious", "rage", "hate",
      "frustrated", "annoyed"] (lowerText t) = 0 := by
    rw [kwScore, List.filter_congr (fun kw hkw => h1 ("anger", ["angry",
      "mad", "furious", "rage", "hate", "frustrated", "annoyed"])
      (by decide) kw hkw)]
    decide
  have hfear : kwScore ["scared", "afraid", "fear", "anxious", "worried",
      "panic", "terrified"] (lowerText t) = 0 := by
    rw [kwScore, List.filter_congr (fun kw hkw => h1 ("fear", ["scared",
      "afraid", "fear", "anxious", "worried", "panic", "terrified"])
      (by decide) kw hkw)]
    decide
  have hsurp : kwScore ["surprised", "shocked", "amazed", "wow",
      "unexpected"] (lowerText t) = 0 := by
    rw [kwScore, List.filter_congr (fun kw hkw => h1 ("surprise",
      ["surprised", "shocked", "amazed", "wow", "unexpected"])
      (by decide) kw hkw)]
    decide
  have hlov : kwScore ["love", "adore", "cherish", "romantic", "affection",
      "caring"] (lowerText t) = 1 := by
    rw [kwScore, List.filter_congr (fun kw hkw => h1 ("love", ["love",
      "adore", "cherish", "romantic", "affection", "caring"])
      (by decide) kw hkw)]
    decide
  have hsc : scoredList ml_keyword_table (lowerText t) =
      [("joy", 1), ("love", 1)] := by
    simp only [ml_keyword_table, scoredList, List.filterMap_cons,
      List.filterMap_nil, hjoy, hsad, hang, hfear, hsurp, hlov]
    norm_num
  rw [fallback_emotion_detection, hblank]
  simp only [Bool.false_eq_true, if_false]
  simp only [fallbackCore, hsc, pickFirstMax, List.foldl_cons,
    List.foldl_nil]
  norm_num [confFn, ratMin]

/-- Witness for C10: on the text love itself, the only keyword hit is
love and the ml_utils fallback returns (joy, 0.6). -/
theorem ml_love_only_hit_witness :
    (ml_keyword_table.all (fun p => p.2.all (fun kw =>
        containsSub kw.toList (lowerText ("love".toList)) ==
          (kw == "love")))) = true ∧
    fallback_emotion_detection ("love".toList) = ("joy", 3 / 5) :=
  ⟨by decide, ml_love_only_hit ("love".toList) (by decide)⟩

theorem mem_first_dedup {α : Type} [DecidableEq α] (x : α) :
    ∀ l : List α, x ∈ first_dedup l ↔ x ∈ l := by
  intro l
  induction l with
  | nil => rfl
  | cons a l ih =>
      rw [first_dedup]
      constructor
      · intro h
        rcases List.mem_cons.mp h with h1 | h1
        · exact h1 ▸ List.mem_cons_self a l
        · have := (List.mem_filter.mp h1).1
          exact List.mem_cons_of_mem a (ih.mp this)
      · intro h
        rcases List.mem_cons.mp h with h1 | h1
        · exact h1 ▸ List.mem_cons_self a _
        · by_cases hx : x = a
          · exact hx ▸ List.mem_cons_self a _
          · refine List.mem_cons_of_mem a (List.mem_filter.mpr ⟨ih.mpr h1, ?_⟩)
            simp [hx]

theorem nodup_first_dedup {α : Type} [DecidableEq α] :
    ∀ l : List α, (first_dedup l).Nodup := by
  intro l
  induction l with
  | nil => exact List.nodup_nil
  | cons a l ih =>
      rw [first_dedup]
      refine List.Nodup.cons ?_ (List.Nodup.filter _ ih)
      intro hmem
      have := (List.mem_filter.mp hmem).2
      simp at this

theorem first_dedup_perm_dedup {α : Type} [DecidableEq α] (l : List α) :
    (first_dedup l).Perm l.dedup := by
  refine (List.perm_ext_iff_of_nodup (nodup_first_dedup l)
    (List.nodup_dedup l)).mpr ?_
  intro x
  rw [mem_first_dedup, List.mem_dedup]

theorem sum_count_first_dedup {α : Type} [DecidableEq α] (l : List α) :
    ((first_dedup l).map (fun e => l.count e)).sum = l.length := by
  have hperm := (first_dedup_perm_dedup l).map (fun e => l.count e)
  rw [hperm.sum_eq]
  exact List.sum_map_count_dedup_eq_length l

theorem sum_map_mul_const {α : Type} (l : List α) (f : α → ℚ) (c : ℚ) :
    (l.map (fun x => f x * c)).sum = (l.map f).sum * c := by
  induction l with
  | nil => simp
  | cons a l ih => simp [ih, add_mul]

/-- Claim C7: on a non-empty filtered record set the distribution maps
exactly the occurring emotions to (count / total) * 100 and the
percentages sum to 100; on the empty set it is the empty mapping. -/
theorem get_emotion_distribution_correct (rs : List EmotionRecord)
    (h : rs ≠ []) :
    (∀ e, (∃ q, (e, q) ∈ get_emotion_distribution rs) ↔
      e ∈ rs.map (fun r => r.emotion)) ∧
    (∀ e q, (e, q) ∈ get_emotion_distribution rs →
      q = (((rs.map (fun r => r.emotion)).count e : ℚ) / (rs.length : ℚ))
        * 100) ∧
    ((get_emotion_distribution rs).map (fun p => p.2)).sum = 100 ∧
    get_emotion_distribution [] = [] := by
  have hne : rs.isEmpty = false := by
    cases rs with
    | nil => exact absurd rfl h
    | cons a l => rfl
  have hdef : get_emotion_distribution rs =
      (first_dedup (rs.map (fun r => r.emotion))).map (fun e =>
        (e, (((rs.map (fun r => r.emotion)).count e : ℚ) /
          ((rs.map (fun r => r.emotion)).length : ℚ)) * 100)) := by
    rw [get_emotion_distribution, hne]
    rfl
  have hlen : (rs.map (fun r => r.emotion)).length = rs.length :=
    List.length_map rs _
  refine ⟨?_, ?_, ?_, rfl⟩
  · intro e
    rw [hdef]
    constructor
    · intro ⟨q, hq⟩
      obtain ⟨a, ha, hap⟩ := List.mem_map.mp hq
      have : a = e := congrArg Prod.fst hap
      exact (mem_first_dedup e _).mp (this ▸ ha)
    · intro he
      exact ⟨_, List.mem_map_of_mem _ ((mem_first_dedup e _).mpr he)⟩
  · intro e q hq
    rw [hdef] at hq
    obtain ⟨a, ha, hap⟩ := List.mem_map.mp hq
    have ha1 : a = e := congrArg Prod.fst hap
    have ha2 := congrArg Prod.snd hap
    simp only at ha2
    rw [← ha2, ha1, hlen]
  · rw [hdef]
    have hN : ((rs.length : ℚ)) ≠ 0 := by
      have : rs.length ≠ 0 := by
        cases rs with
        | nil => exact absurd rfl h
        | cons a l => simp
      exact_mod_cast this
    rw [List.map_map]
    have hcomp : ((fun p : String × ℚ => p.2) ∘ (fun e =>
        (e, (((rs.map (fun r => r.emotion)).count e : ℚ) /
          ((rs.map (fun r => r.emotion)).length : ℚ)) * 100))) = fun e =>
        (((rs.map (fun r => r.emotion)).count e : ℚ) / (rs.length : ℚ))
          * 100 := by
      funext e
      simp [hlen]
    rw [hcomp]
    have hrw : (fun e => (((rs.map (fun r => r.emotion)).count e : ℚ) /
        (rs.length : ℚ)) * 100) = fun e =>
        (((rs.map (fun r => r.emotion)).count e : ℚ)) *
          (100 / (rs.length : ℚ)) := by
      funext e
      ring
    rw [hrw, sum_map_mul_const]
    have hcast : ((first_dedup (rs.map (fun r => r.emotion))).map
        (fun e => (((rs.map (fun r => r.emotion)).count e : ℚ)))).sum =
        (((first_dedup (rs.map (fun r => r.emotion))).map
          (fun e => (rs.map (fun r => r.emotion)).count e)).sum : ℚ) := by
      rw [Nat.cast_list_sum, List.map_map]
      rfl
    rw [hcast, sum_count_first_dedup, hlen]
    field_simp

/-- Witness for C7: on records with emotions [joy, joy, sadness] the
percentages sum to 100. -/
theorem get_emotion_distribution_correct_witness :
    dist_records ≠ [] ∧
    ((get_emotion_distribution dist_records).map (fun p => p.2)).sum = 100 :=
  ⟨by decide, (get_emotion_distribution_correct dist_records
    (by decide)).2.2.1⟩

/-- Claim C8 (amended): the analytics-module emotional-balance view, on a
non-empty filtered set, returns exactly the three fixed categories in
order, each mapped to the average of the stored intensities (a missing or
zero intensity reads as 0.5) of the records whose emotion falls in the
category, and to 0 when no record matches; the routes-level endpoint does
not implement this (see the counterexample). -/
theorem get_emotional_balance_correct (rs : List EmotionRecord)
    (h : rs ≠ []) :
    (get_emotional_balance rs).map (fun p => p.1) =
      ["Positive", "Negative", "Neutral"] ∧
    ∀ name cats, (name, cats) ∈ emotion_categories →
      ((rs.filter (fun r => cats.contains r.emotion)) = [] →
        (name, (0 : ℚ)) ∈ get_emotional_balance rs) ∧
      ((rs.filter (fun r => cats.contains r.emotion)) ≠ [] →
        (name, ((rs.filter (fun r => cats.contains r.emotion)).map
            pyIntensity).sum /
          (((rs.filter (fun r => cats.contains r.emotion)).map
            pyIntensity).length : ℚ)) ∈ get_emotional_balance rs) := by
  have hne : rs.isEmpty = false := by
    cases rs with
    | nil => exact absurd rfl h
    | cons a l => rfl
  have hdef : get_emotional_balance rs =
      emotion_categories.map (fun c => (c.1, category_score rs c.2)) := by
    rw [get_emotional_balance, hne]
    rfl
  constructor
  · rw [hdef]
    rfl
  · intro name cats hmem
    have hval : (name, category_score rs cats) ∈ get_emotional_balance rs := by
      rw [hdef]
      exact List.mem_map_of_mem (fun c => (c.1, category_score rs c.2)) hmem
    constructor
    · intro hnil
      have : category_score rs cats = 0 := by
        rw [category_score, hnil]
        rfl
      exact this ▸ hval
    · intro hnn
      have hie : ((rs.filter (fun r => cats.contains r.emotion)).map
          pyIntensity).isEmpty = false := by
        rw [List.isEmpty_eq_false]
        simp only [ne_eq, List.map_eq_nil_iff]
        exact hnn
      have : category_score rs cats =
          ((rs.filter (fun r => cats.contains r.emotion)).map
            pyIntensity).sum /
          (((rs.filter (fun r => cats.contains r.emotion)).map
            pyIntensity).length : ℚ) := by
        rw [category_score, hie]
        rfl
      exact this ▸ hval

/-- Witness for C8 (amended): on one joy record of intensity 0.8 the view
lists exactly the categories Positive, Negative, Neutral. -/
theorem get_emotional_balance_correct_witness :
    balance_records ≠ [] ∧
    (get_emotional_balance balance_records).map (fun p => p.1) =
      ["Positive", "Negative", "Neutral"] :=
  ⟨by decide, (get_emotional_balance_correct balance_records (by decide)).1⟩

/-- Counterexample for C8: the routes-level emotional-balance endpoint on
one joy record returns the per-emotion frequency share mapping [joy: 1]
and contains no entry for the fixed category Positive at all, so it does
not return per-category average intensities. -/
theorem routes_emotional_balance_cex :
    (routes_emotional_balance ["joy"]).map (fun p => p.1) = ["joy"] ∧
    "Positive" ∉ (routes_emotional_balance ["joy"]).map (fun p => p.1) := by
  constructor
  · rfl
  · intro hmem
    rw [show (routes_emotional_balance ["joy"]).map (fun p => p.1) =
      ["joy"] from rfl] at hmem
    simp at hmem

/-- Claim C9 (amended): the analytics-module summary statistics on the
empty filtered set are exactly (0, N/A, 0, 0). -/
theorem get_summary_stats_empty : get_summary_stats [] = (0, "N/A", 0, 0) :=
  rfl

/-- Counterexample for C9: the routes-level summary endpoint on the empty
set returns most_common_emotion neutral, not N/A. -/
theorem analytics_summary_empty_cex :
    analytics_summary [] = (0, "neutral", 0, 0) ∧
    ("neutral" : String) ≠ "N/A" := by
  constructor
  · rfl
  · decide
